import Mathlib

/-!
Verification of the numerical-methods engine (linear-system solvers and
scalar root finders) against its design specification.

The Python source is shallowly embedded over exact rationals: every
machine-float quantity is modelled as a `ℚ`, Python `round` is modelled as
exact decimal rounding half-to-even, `math.floor(math.log10 |x|)` is
`Int.log 10 |x|`, and each solver's imperative loop becomes a structurally
recursive function on an explicit fuel/iteration budget.  Externally
supplied callables (the expression evaluator `f` and its derivatives,
`numpy.linalg.eigvals`) are function parameters, matching the spec's
"consumes, but does not implement" interface contract.
-/

namespace NumEngine

/-- `10 ^ d` over `ℚ` for an integer exponent `d`, written without `zpow`
so that concrete evaluation stays in `Nat` powers. -/
def pow10 (d : ℤ) : ℚ :=
  if 0 ≤ d then (10 : ℚ) ^ d.toNat else 1 / (10 : ℚ) ^ (-d).toNat

/-- Round a rational to the nearest integer, ties to even
(the rounding mode of Python's built-in `round`). -/
def rndHalfEven (q : ℚ) : ℤ :=
  let f := ⌊q⌋
  let r := q - (f : ℚ)
  if r < 1 / 2 then f
  else if 1 / 2 < r then f + 1
  else if f % 2 = 0 then f else f + 1

/-- Python's `round(x, d)` idealised over exact rationals: round `x` to
`d` decimal places, ties to even (`d` may be negative). -/
def pyRound (x : ℚ) (d : ℤ) : ℚ :=
  ((rndHalfEven (x * pow10 d) : ℤ) : ℚ) / pow10 d

/-- `AbstractRootFinder.round_sig_fig` / `AbstractSolver.round_sig_fig`
(src/RootFinder/AbstractRootFinder.py lines 15-20): `0` maps to `0`,
a nonzero `x` is rounded to `n` significant decimal digits via
`round(x, n - floor(log10(abs(x))) - 1)`. -/
def round_sig_fig (n : ℤ) (x : ℚ) : ℚ :=
  if x = 0 then 0 else pyRound x (n - Int.log 10 |x| - 1)

/-- `AbstractRootFinder._count_correct_sig_figs`
(src/RootFinder/AbstractRootFinder.py lines 43-52): `0` whenever either
iterate is exactly zero; the configured `precision` when the relative
change is exactly zero; otherwise `max(0, -floor(log10 error))`. -/
def count_correct_sig_figs (precision : ℤ) (current previous : ℚ) : ℤ :=
  if current = 0 ∨ previous = 0 then 0
  else
    let error := |(current - previous) / current|
    if error = 0 then precision else max 0 (-(Int.log 10 error))

lemma pow10_pos (d : ℤ) : 0 < pow10 d := by
  unfold pow10
  split <;> positivity

lemma pow10_neg (d : ℤ) : pow10 (-d) = (pow10 d)⁻¹ := by
  rcases lt_trichotomy d 0 with h | h | h
  · have h1 : ¬ (0 ≤ d) := not_le.mpr h
    have h2 : 0 ≤ -d := by omega
    simp only [pow10, if_pos h2, if_neg h1, neg_neg, one_div, inv_inv]
  · subst h; simp [pow10]
  · have h1 : 0 ≤ d := le_of_lt h
    have h2 : ¬ (0 ≤ -d) := by omega
    simp only [pow10, if_pos h1, if_neg h2, neg_neg, one_div]

lemma pow10_eq_zpow (d : ℤ) : pow10 d = (10 : ℚ) ^ d := by
  unfold pow10
  split
  · rw [← zpow_natCast]
    congr 1
    omega
  · rw [one_div, ← zpow_natCast, ← zpow_neg]
    congr 1
    omega

/-- Evaluation rule for `Int.log 10` on a concrete positive rational. -/
lemma int_log10_eval {q : ℚ} {e : ℤ} (h1 : pow10 e ≤ q) (h2 : q < pow10 (e + 1)) :
    Int.log 10 q = e := by
  have hq : 0 < q := lt_of_lt_of_le (pow10_pos e) h1
  have ha : e ≤ Int.log 10 q := by
    rw [← Int.zpow_le_iff_le_log (by norm_num) hq]
    rw [show ((10 : ℕ) : ℚ) = (10 : ℚ) by norm_num, ← pow10_eq_zpow]
    exact h1
  have hb : Int.log 10 q < e + 1 := by
    rw [← Int.lt_zpow_iff_log_lt (by norm_num) hq]
    rw [show ((10 : ℕ) : ℚ) = (10 : ℚ) by norm_num, ← pow10_eq_zpow]
    exact h2
  omega

/-- Evaluation rule for `round_sig_fig` on a concrete nonzero rational. -/
lemma round_sig_fig_eval {n e : ℤ} {x y : ℚ} (hx : x ≠ 0)
    (h1 : pow10 e ≤ |x|) (h2 : |x| < pow10 (e + 1))
    (hy : ((rndHalfEven (x * pow10 (n - e - 1)) : ℤ) : ℚ) / pow10 (n - e - 1) = y) :
    round_sig_fig n x = y := by
  rw [round_sig_fig, if_neg hx, int_log10_eval h1 h2, pyRound, hy]

lemma round_sig_fig_zero (n : ℤ) : round_sig_fig n 0 = 0 := by
  simp [round_sig_fig]

/-- **C1.** `round_sig_fig 0 n = 0` for every integer `n`, and for nonzero
`x` the result is exactly `round(x, n - floor(log10 |x|) - 1)`; moreover
that value is an integer multiple of `10 ^ (floor(log10 |x|) + 1 - n)`,
i.e. it carries at most `n` significant decimal digits. -/
theorem round_sig_fig_spec (n : ℤ) (x : ℚ) (hx : x ≠ 0) :
    round_sig_fig n 0 = 0 ∧
    round_sig_fig n x = pyRound x (n - Int.log 10 |x| - 1) ∧
    ∃ m : ℤ, round_sig_fig n x = (m : ℚ) * pow10 (Int.log 10 |x| + 1 - n) := by
  refine ⟨by simp [round_sig_fig], by simp [round_sig_fig, hx], ?_⟩
  refine ⟨rndHalfEven (x * pow10 (n - Int.log 10 |x| - 1)), ?_⟩
  have he : Int.log 10 |x| + 1 - n = -(n - Int.log 10 |x| - 1) := by ring
  rw [round_sig_fig, if_neg hx, pyRound, he, pow10_neg, div_eq_mul_inv]

/-- Witness for `round_sig_fig_spec` at `n = 2`, `x = 3`. -/
theorem round_sig_fig_spec_witness :
    (3 : ℚ) ≠ 0 ∧
    (round_sig_fig 2 0 = 0 ∧
      round_sig_fig 2 3 = pyRound 3 (2 - Int.log 10 |(3 : ℚ)| - 1) ∧
      ∃ m : ℤ, round_sig_fig 2 3 = (m : ℚ) * pow10 (Int.log 10 |(3 : ℚ)| + 1 - 2)) :=
  ⟨by norm_num, round_sig_fig_spec 2 3 (by norm_num)⟩

/-- **C10.** The reported count of correct significant figures is `0`
whenever the accepted iterate or its reference iterate is exactly `0`
(regardless of accuracy); otherwise it is the configured precision when
the relative change `|(current - previous)/current|` is exactly zero and
`max 0 (-floor(log10 error))` otherwise. -/
theorem count_correct_sig_figs_spec (p : ℤ) (current previous : ℚ) :
    ((current = 0 ∨ previous = 0) → count_correct_sig_figs p current previous = 0) ∧
    (current ≠ 0 → previous ≠ 0 →
      count_correct_sig_figs p current previous =
        if |(current - previous) / current| = 0 then p
        else max 0 (-(Int.log 10 |(current - previous) / current|))) := by
  constructor
  · intro h
    simp [count_correct_sig_figs, h]
  · intro h1 h2
    simp [count_correct_sig_figs, h1, h2]

/-- Witness for `count_correct_sig_figs_spec` at a zero iterate and at a
pair of nonzero iterates. -/
theorem count_correct_sig_figs_spec_witness :
    count_correct_sig_figs 5 0 (3 / 2) = 0 ∧
    count_correct_sig_figs 5 2 1 =
      if |((2 : ℚ) - 1) / 2| = 0 then 5
      else max 0 (-(Int.log 10 |((2 : ℚ) - 1) / 2|)) :=
  ⟨(count_correct_sig_figs_spec 5 0 (3 / 2)).1 (Or.inl rfl),
   (count_correct_sig_figs_spec 5 2 1).2 (by norm_num) (by norm_num)⟩

/-! ## Root finders

Each Python finder is a loop over `range(max_iterations)`; the embedding
recurses on the remaining fuel and reports `iterations = maxIter - fuel`.
The scalar function `f` and, for the Newton family, its derivatives are
function parameters: the spec (§6) has the core consume — not implement —
an external expression engine, and `evaluate_first_derivative` /
`expr` / `x_sym` used by the Newton variants are absent from the sources.
`math.isfinite` guards are omitted: every value of the exact-rational
model is finite. -/

/-- Failure modes of the root finders, one per `raise` site. `unboundLocal`
models Python's `UnboundLocalError`: a `return` or `raise` statement that
reads a local variable (`rel_error`, `step`, `error`, …) which no loop
iteration has assigned yet. -/
inductive RFErr where
  | noSignChange
  | divergence
  | nonConvergence
  | derivativeTooSmall
  | divisionByZero
  | unboundLocal
  deriving DecidableEq

/-- The success dictionary a root finder returns:
`root`, `iterations`, `rel_error`, `correct_sig_figs`. -/
structure RFOk where
  root : ℚ
  iterations : ℕ
  relError : ℚ
  csf : ℤ
  deriving DecidableEq

/-- Outcome of a root-finder `solve()`: the success dictionary or a raised
error. -/
inductive RFResult where
  | ok (r : RFOk)
  | err (e : RFErr)
  deriving DecidableEq

/-- Loop body of `FixedPoint.solve` (src/RootFinder/FixedPoint.py lines
13-60).  State: remaining fuel, current iterate `x`, and the last computed
`rel_error` (`none` before the first iteration).  On fuel exhaustion the
code returns a success dictionary built from `x` and the stale
`rel_error`. -/
def fixed_point_go (g : ℚ → ℚ) (prec : ℤ) (eps : ℚ) (maxIter : ℕ) :
    ℕ → ℚ → Option ℚ → RFResult
  | 0, x, lastRel =>
    match lastRel with
    | some r => .ok ⟨x, maxIter, r, count_correct_sig_figs prec x x⟩
    | none => .err .unboundLocal
  | fuel + 1, x, _ =>
    let gx := round_sig_fig prec (g x)
    let relError := round_sig_fig prec |(gx - x) / (if gx = 0 then 1 / 10 ^ 10 else gx)|
    if relError < eps ∨ |gx - x| < 1 / 10 ^ 12 ∨ |gx - x| < 1 / 10 ^ 14 then
      .ok ⟨gx, maxIter - fuel, relError, count_correct_sig_figs prec gx x⟩
    else if 10 ^ 10 < |gx| then .err .divergence
    else fixed_point_go g prec eps maxIter fuel gx (some relError)

/-- `FixedPoint.solve`: `g` is the externally evaluated iteration
function (`g = f` by convention). -/
def fixed_point_solve (g : ℚ → ℚ) (prec : ℤ) (x0 eps : ℚ) (maxIter : ℕ) : RFResult :=
  fixed_point_go g prec eps maxIter maxIter (round_sig_fig prec x0) none

/-- Loop body of `Bisection.solve` (src/RootFinder/Bisection.py lines
27-63).  State: fuel, bracket `a`, `b` with `fa = f a`, `fb = f b`, and
`root` (the previous midpoint, seeded with `a`). -/
def bisection_go (f : ℚ → ℚ) (prec : ℤ) (eps : ℚ) (maxIter : ℕ) :
    ℕ → ℚ → ℚ → ℚ → ℚ → ℚ → RFResult
  | 0, _, _, _, _, _ => .err .nonConvergence
  | fuel + 1, a, b, fa, fb, root =>
    let c := (a + b) / 2
    let fc := f c
    let relError := |(c - root) / (if c = 0 then 1 / 10 ^ 10 else c)|
    if |fc| < eps ∨ relError < eps then
      .ok ⟨round_sig_fig prec c, maxIter - fuel, round_sig_fig prec relError,
        count_correct_sig_figs prec c root⟩
    else if fa * fc < 0 then
      bisection_go f prec eps maxIter fuel a c fa fc c
    else
      bisection_go f prec eps maxIter fuel c b fc fb c

/-- `Bisection.solve`: bracket precondition `f(a) * f(b) > 0` raises
`NoSignChangeError`, then the loop runs. -/
def bisection_solve (f : ℚ → ℚ) (prec : ℤ) (a b eps : ℚ) (maxIter : ℕ) : RFResult :=
  let fa := f a
  let fb := f b
  if 0 < fa * fb then .err .noSignChange
  else bisection_go f prec eps maxIter maxIter a b fa fb a

/-- Loop body of `NewtonRaphson.solve` (src/RootFinder/NewtonRaphson.py
lines 24-74).  `fp` is the externally supplied first-derivative
evaluator (`evaluate_first_derivative` is not defined in the sources;
the spec §6 lists `f'` among the consumed external evaluators). -/
def newton_go (f fp : ℚ → ℚ) (prec : ℤ) (eps : ℚ) (maxIter : ℕ) :
    ℕ → ℚ → ℚ → RFResult
  | 0, _, _ => .err .nonConvergence
  | fuel + 1, xp, fx =>
    let dfx := round_sig_fig prec (fp xp)
    if |dfx| < 1 / 10 ^ 12 then .err .derivativeTooSmall
    else
      let xn := round_sig_fig prec (xp - fx / dfx)
      let fxn := round_sig_fig prec (f xn)
      let relError := round_sig_fig prec |(xn - xp) / (if xn = 0 then 1 / 10 ^ 10 else xn)|
      if relError < eps then
        .ok ⟨xn, maxIter - fuel, relError, count_correct_sig_figs prec xn xp⟩
      else newton_go f fp prec eps maxIter fuel xn fxn

/-- `NewtonRaphson.solve`. -/
def newton_solve (f fp : ℚ → ℚ) (prec : ℤ) (x0 eps : ℚ) (maxIter : ℕ) : RFResult :=
  let xp := round_sig_fig prec x0
  let fx := round_sig_fig prec (f xp)
  newton_go f fp prec eps maxIter maxIter xp fx

/-- Loop body of `Secant.solve` (src/RootFinder/Secant.py lines 26-65).
State: fuel, previous iterate `xm`, current iterate `xi`, and their
rounded function values; the denominator is recomputed from them exactly
as the code does at the end of each iteration. -/
def secant_go (f : ℚ → ℚ) (prec : ℤ) (eps tol : ℚ) (maxIter : ℕ) :
    ℕ → ℚ → ℚ → ℚ → ℚ → RFResult
  | 0, _, _, _, _ => .err .nonConvergence
  | fuel + 1, xm, xi, fm, fi =>
    let denom := fm - fi
    if |denom| < tol then .err .divisionByZero
    else
      let xip1 := round_sig_fig prec (xi - fi * (xm - xi) / denom)
      let relError := round_sig_fig prec |(xip1 - xi) / max |xip1| (1 / 10 ^ 12)|
      if 10 ^ 12 < relError then .err .divergence
      else if relError < eps then
        .ok ⟨xip1, maxIter - fuel, relError, count_correct_sig_figs prec xip1 xi⟩
      else
        secant_go f prec eps tol maxIter fuel xi xip1
          (round_sig_fig prec (f xi)) (round_sig_fig prec (f xip1))

/-- `Secant.solve`: the division guard threshold is
`10 ** -(precision + 1)`. -/
def secant_solve (f : ℚ → ℚ) (prec : ℤ) (x0 x1 eps : ℚ) (maxIter : ℕ) : RFResult :=
  let tol := pow10 (-(prec + 1))
  let xm := round_sig_fig prec x0
  let xi := round_sig_fig prec x1
  secant_go f prec eps tol maxIter maxIter xm xi
    (round_sig_fig prec (f xm)) (round_sig_fig prec (f xi))

/-- Loop body of `Modified2NewtonRaphson.solve`
(src/RootFinder/Modified2NewtonRaphson.py lines 30-85), the
unknown-multiplicity Newton variant.  `f1`, `f2` are the externally
derived first/second derivative evaluators (the sources reference
`self.expr` / `self.x_sym`, which no class in src/ defines; spec §6 lists
`f'`, `f''` among the consumed evaluators).  The early-return branch for a
near-zero denominator reads the locals `rel_error` and `step` from the
previous iteration — `none` on the very first one. -/
def modified2_go (f f1 f2 : ℚ → ℚ) (prec : ℤ) (eps : ℚ) (maxIter : ℕ) :
    ℕ → ℚ → ℚ → Option ℚ → Option ℚ → RFResult
  | 0, _, _, _, _ => .err .nonConvergence
  | fuel + 1, xp, fx, lastRel, lastStep =>
    let g1 := round_sig_fig prec (f1 xp)
    let g2 := round_sig_fig prec (f2 xp)
    if |g1| < 1 / 10 ^ 12 then .err .derivativeTooSmall
    else
      let denom := g1 ^ 2 - fx * g2
      if |denom| < 1 / 10 ^ 12 then
        match lastRel, lastStep with
        | some r, some s =>
          .ok ⟨xp, maxIter - fuel, r, count_correct_sig_figs prec xp (xp - s)⟩
        | some _, none => .err .unboundLocal
        | none, some _ => .err .unboundLocal
        | none, none => .err .unboundLocal
      else
        let step := fx * g1 / denom
        let xn := round_sig_fig prec (xp - step)
        let fxn := round_sig_fig prec (f xn)
        let relError := round_sig_fig prec |(xn - xp) / (if xn = 0 then 1 / 10 ^ 10 else xn)|
        if relError < eps then
          .ok ⟨xn, maxIter - fuel, relError, count_correct_sig_figs prec xn xp⟩
        else modified2_go f f1 f2 prec eps maxIter fuel xn fxn (some relError) (some step)

/-- `Modified2NewtonRaphson.solve`. -/
def modified2_newton_solve (f f1 f2 : ℚ → ℚ) (prec : ℤ) (x0 eps : ℚ)
    (maxIter : ℕ) : RFResult :=
  let xp := round_sig_fig prec x0
  let fx := round_sig_fig prec (f xp)
  modified2_go f f1 f2 prec eps maxIter maxIter xp fx none none

/-! ## Iterative linear solver (Jacobi / Gauss-Seidel)

`IterativeMethod.solve` (src/methods/IterativeMethod.py).  Vectors are
`List ℚ`; the in-place update of `self.X` becomes an accumulator of the
components already computed this sweep. -/

/-- `IterativeMethod.dot_with_rounding` (lines 123-142): every product is
rounded before being added, and the final total is rounded once more. -/
def dot_with_rounding (adj : ℚ → ℚ) (row vec : List ℚ) : ℚ :=
  adj ((row.zip vec).foldl (fun t p => t + adj (p.1 * p.2)) 0)

/-- One sweep of the iteration (lines 59-78).  `acc` holds the components
already updated this sweep (the prefix of `self.X` the Gauss-Seidel
branch reads); `i` is the absolute row index. -/
def sweepAux (jac : Bool) (adj : ℚ → ℚ) (old : List ℚ) :
    List (List ℚ) → List ℚ → ℕ → List ℚ → List ℚ
  | [], _, _, acc => acc
  | _ :: _, [], _, acc => acc
  | row :: ar, bi :: br, i, acc =>
    let s1 := dot_with_rounding adj (row.take i) (if jac then old.take i else acc)
    let s2 := dot_with_rounding adj (row.drop (i + 1)) (old.drop (i + 1))
    let xi := adj ((bi - s1 - s2) / row.getD i 0)
    sweepAux jac adj old ar br (i + 1) (acc ++ [xi])

/-- A full sweep over all rows starting from the previous iterate
`old`. -/
def sweep (jac : Bool) (adj : ℚ → ℚ) (A : List (List ℚ)) (b old : List ℚ) : List ℚ :=
  sweepAux jac adj old A b 0 []

/-- The convergence error of line 81:
`np.max(np.abs((X - old_x) / (X + 1e-12)))`. -/
def conv_err (newX old : List ℚ) : ℚ :=
  ((newX.zip old).map fun p => |(p.1 - p.2) / (p.1 + 1 / 10 ^ 12)|).foldl max 0

/-- Failure modes of `IterativeMethod.solve`: the non-convergence
`ValueError` of line 121 carries the last error value; `unboundLocal`
models the `max_iterations = 0` edge where that line reads an `error`
local never assigned. -/
inductive ItErr where
  | nonConvergence (lastError : ℚ)
  | unboundLocal
  deriving DecidableEq

/-- Success dictionary of `IterativeMethod.solve`. -/
structure ItOk where
  sol : List ℚ
  iterations : ℕ
  error : ℚ
  deriving DecidableEq

/-- Outcome of `IterativeMethod.solve`. -/
inductive ItResult where
  | ok (r : ItOk)
  | err (e : ItErr)
  deriving DecidableEq

/-- Main loop of `IterativeMethod.solve` (lines 54-121). -/
def iterative_go (jac : Bool) (prec : ℤ) (tol : ℚ) (A : List (List ℚ)) (b : List ℚ)
    (maxIter : ℕ) : ℕ → List ℚ → Option ℚ → ItResult
  | 0, _, lastErr =>
    match lastErr with
    | some e => .err (.nonConvergence e)
    | none => .err .unboundLocal
  | fuel + 1, x, _ =>
    let xn := sweep jac (round_sig_fig prec) A b x
    let e := conv_err xn x
    if e < tol then .ok ⟨xn, maxIter - fuel, e⟩
    else iterative_go jac prec tol A b maxIter fuel xn (some e)

/-- `IterativeMethod.solve`: `jac = true` selects Jacobi, `false`
Gauss-Seidel. -/
def iterative_solve (jac : Bool) (prec : ℤ) (A : List (List ℚ)) (b x0 : List ℚ)
    (maxIter : ℕ) (tol : ℚ) : ItResult :=
  iterative_go jac prec tol A b maxIter maxIter x0 none

/-! ## System pre-validator (`SolverFactory.validate`)

A disposable partial Gaussian elimination with partial pivoting over an
exact copy, followed by a row-classification scan.  No rounding is
applied anywhere (the Python code works on raw floats here). -/

/-- Pivot search of lines 54-62: the row `i ≥ k` with strictly largest
`|A[i][k]|`, ties to the earliest. -/
def pivot_search (A : List (List ℚ)) (k n : ℕ) : ℕ × ℚ :=
  ((List.range n).drop (k + 1)).foldl
    (fun best i =>
      if best.2 < |(A.getD i []).getD k 0| then (i, |(A.getD i []).getD k 0|) else best)
    (k, |(A.getD k []).getD k 0|)

/-- Swap entries `i` and `j` of a list. -/
def swap_entries {α : Type} (l : List α) (i j : ℕ) (dflt : α) : List α :=
  let vi := l.getD i dflt
  let vj := l.getD j dflt
  (l.set i vj).set j vi

/-- Map with the absolute column index, used to apply a row operation to
the columns `k` onward. -/
def mapWithIdx {α β : Type} (f : ℕ → α → β) : List α → ℕ → List β
  | [], _ => []
  | a :: l, j => f j a :: mapWithIdx f l (j + 1)

/-- Elimination below the pivot, lines 74-78: subtract `factor` times the
pivot row from every lower row (columns `k` onward), force the `k` entry
to `0`, and update `b`. -/
def elim_below (k n : ℕ) (st : List (List ℚ) × List ℚ) : List (List ℚ) × List ℚ :=
  ((List.range n).drop (k + 1)).foldl
    (fun st i =>
      let A := st.1
      let b := st.2
      let pivotRow := A.getD k []
      let factor := (A.getD i []).getD k 0 / pivotRow.getD k 0
      let newRow := ((mapWithIdx (fun j a =>
        if k ≤ j then a - factor * pivotRow.getD j 0 else a) (A.getD i []) 0).set k 0)
      (A.set i newRow, b.set i (b.getD i 0 - factor * b.getD k 0)))
    st

/-- One column step of the validator's elimination (lines 54-78): pivot
search, skip when the best pivot magnitude is below `1e-12`, otherwise
swap and eliminate. -/
def validate_step (n : ℕ) (st : List (List ℚ) × List ℚ) (k : ℕ) :
    List (List ℚ) × List ℚ :=
  let best := pivot_search st.1 k n
  if best.2 < 1 / 10 ^ 12 then st
  else
    let st1 :=
      if best.1 ≠ k then (swap_entries st.1 k best.1 [], swap_entries st.2 k best.1 0)
      else st
    elim_below k n st1

/-- The validator's full elimination over all columns. -/
def validate_elim (A : List (List ℚ)) (b : List ℚ) : List (List ℚ) × List ℚ :=
  (List.range A.length).foldl (validate_step A.length) (A, b)

/-- Classification errors of `SolverFactory.validate` (lines 81-87). -/
inductive ValErr where
  | inconsistent (row : ℕ)
  | infiniteSolutions
  deriving DecidableEq

/-- Row-classification scan of lines 81-87, in program order: the first
row whose coefficients all have magnitude below `1e-12` raises
inconsistency when `|b[i]| > 1e-12` and infinite solutions when
`|b[i]| < 1e-12` (a constant of magnitude exactly `1e-12` raises
neither). -/
def check_rows : List (List ℚ) → List ℚ → ℕ → Option ValErr
  | [], _, _ => none
  | _ :: _, [], _ => none
  | row :: ar, bi :: br, i =>
    if (∀ a ∈ row, |a| < 1 / 10 ^ 12) ∧ 1 / 10 ^ 12 < |bi| then some (.inconsistent i)
    else if (∀ a ∈ row, |a| < 1 / 10 ^ 12) ∧ |bi| < 1 / 10 ^ 12 then some .infiniteSolutions
    else check_rows ar br (i + 1)

/-- `SolverFactory.validate` (lines 35-87): eliminate on copies, then
scan.  Returns the raised classification error, if any. -/
def validate (A : List (List ℚ)) (b : List ℚ) : Option ValErr :=
  let st := validate_elim A b
  check_rows st.1 st.2 0

/-! ## Data model and method factory -/

/-- A value stored in the `params` dictionary (the Python dict is
heterogeneous: numbers, strings, vectors and booleans occur). -/
inductive PVal where
  | num (q : ℚ)
  | str (s : String)
  | vec (v : List ℚ)
  | boolean (b : Bool)
  deriving DecidableEq

/-- Python-dict assignment `ps[k] = v` on an insertion-ordered
association list: overwrite in place when the key exists, append
otherwise. -/
def setParam (ps : List (String × PVal)) (k : String) (v : PVal) :
    List (String × PVal) :=
  if (ps.lookup k).isSome then ps.map (fun p => if p.1 = k then (k, v) else p)
  else ps ++ [(k, v)]

/-- `SystemData` (src/System/SystemData.py): the linear-system DTO. -/
structure SystemData where
  A : List (List ℚ)
  b : List ℚ
  method : String
  precision : ℤ
  params : List (String × PVal)
  N : ℕ
  singleStep : Bool
  deriving DecidableEq

/-- `SystemData.__init__` (lines 10-19): stores the fields, derives
`N = len(A)`, sets `single_step = False` and writes
`params["use_scaling"] = False` into the params dictionary. -/
def mk_system_data (A : List (List ℚ)) (b : List ℚ) (method : String)
    (precision : ℤ) (params : List (String × PVal)) : SystemData :=
  { A := A, b := b, method := method, precision := precision,
    params := setParam params "use_scaling" (.boolean false),
    N := A.length, singleStep := false }

/-- The keys of `SolverFactory.SOLVERS` (lines 25-33). -/
def SOLVER_NAMES : List String :=
  ["Gauss Elimination", "Gauss-Jordan", "Doolittle", "Crout", "Cholesky",
   "Jacobi-Iteration", "Gauss-Seidel"]

/-- Errors `SolverFactory.get_solver` can raise: a `KeyError` when
`"LU Decomposition"` is requested without an `"LU Form"` parameter, a
validation error from the pre-validator, or the unimplemented-method
`ValueError`. -/
inductive FacErr where
  | keyError (k : String)
  | validation (e : ValErr)
  | unimplemented (m : String)
  deriving DecidableEq

/-- The string `data.method` is assigned when resolving
`"LU Decomposition"`: the `"LU Form"` parameter's value (a non-string
value would produce a method name matching no solver). -/
def pvalMethodName : PVal → String
  | .str s => s
  | _ => "<non-string LU Form>"

/-- The part of `SolverFactory.get_solver` after the LU-form resolution
(lines 113-130): look the solver class up, write the `"Jacobi"` flag into
`data.params`, run the pre-validator for every method other than the two
iterative ones, then fail on an unknown method. -/
def dispatch_stage (d1 : SystemData) : Except FacErr SystemData :=
  let found := SOLVER_NAMES.contains d1.method
  let jacFlag : PVal := .num (if d1.method = "Jacobi-Iteration" then 1 else 0)
  let d2 : SystemData := { d1 with params := setParam d1.params "Jacobi" jacFlag }
  if d2.method ≠ "Jacobi-Iteration" ∧ d2.method ≠ "Gauss-Seidel" then
    match validate d2.A d2.b with
    | some e => .error (.validation e)
    | none => if found then .ok d2 else .error (.unimplemented d2.method)
  else if found then .ok d2 else .error (.unimplemented d2.method)

/-- `SolverFactory.get_solver` (lines 105-130), returning the mutated DTO
the chosen solver would be constructed from.  Order as in the code:
resolve the LU sub-form (mutating `data.method`, a `KeyError` when the
`"LU Form"` parameter is missing), then `dispatch_stage`. -/
def get_solver (d : SystemData) : Except FacErr SystemData :=
  if d.method = "LU Decomposition" then
    match d.params.lookup "LU Form" with
    | none => .error (.keyError "LU Form")
    | some v => dispatch_stage { d with method := pvalMethodName v }
  else dispatch_stage d

/-! ## Cholesky precondition checks

`Cholesky.solve` (src/methods/Cholesky.py lines 48-91) performs, in
order: the square-shape check, the `np.allclose(A, A.T, atol=1e-9)`
symmetry check (numpy's default relative tolerance `1e-5` applies), and
the positive-eigenvalue check, before any decomposition arithmetic.
`np.linalg.eigvals` is an external numerical routine, so the
eigenvalue test is a `Bool`-valued oracle parameter, and the
decomposition-and-substitution phase (lines 93 onward) is a continuation
parameter: claim-level reasoning needs only that it is never entered when
a check fails. -/

/-- The `np.allclose(A, A.T, atol=1e-9)` test of line 72: elementwise
`|A[i][j] - A[j][i]| ≤ atol + rtol * |A[j][i]|` with `atol = 1e-9` and
numpy's default `rtol = 1e-5`. -/
def allclose_sym (A : List (List ℚ)) (n : ℕ) : Bool :=
  (List.range n).all fun i => (List.range n).all fun j =>
    decide (|(A.getD i []).getD j 0 - (A.getD j []).getD i 0| ≤
      1 / 10 ^ 9 + 1 / 10 ^ 5 * |(A.getD j []).getD i 0|)

/-- The three `ValueError`s of the Cholesky precondition phase. -/
inductive CholErr where
  | notSquare
  | notSymmetric
  | notPosDef
  deriving DecidableEq

/-- The precondition phase of `Cholesky.solve` (lines 61-91): square,
then symmetric, then positive definite; only if all three pass is the
decomposition continuation `decomp` entered. -/
def cholesky_precheck {α : Type} (eigPos : List (List ℚ) → Bool)
    (decomp : List (List ℚ) → List ℚ → α) (A : List (List ℚ)) (b : List ℚ) :
    Except CholErr α :=
  if A.length ≠ (A.getD 0 []).length then .error .notSquare
  else if allclose_sym A A.length then
    (if eigPos A then .ok (decomp A b) else .error .notPosDef)
  else .error .notSymmetric

/-! ## Theorems: Cholesky precondition order (C7) -/

/-- **C7.** For every matrix handed to the Cholesky solver the three
precondition checks run in the order square → symmetric → positive
definite, each failure raising its `InvalidSystemError` before any
decomposition work: a non-square matrix fails the square check whatever
the later checks would say, a square non-symmetric one fails the symmetry
check, a square symmetric one with the eigenvalue test negative fails the
positive-definiteness check, and in every failing case the outcome is
independent of the decomposition continuation — it is never entered. -/
theorem cholesky_precheck_spec {α : Type} (eigPos : List (List ℚ) → Bool)
    (decomp decomp2 : List (List ℚ) → List ℚ → α) (A : List (List ℚ)) (b : List ℚ) :
    (A.length ≠ (A.getD 0 []).length →
      cholesky_precheck eigPos decomp A b = .error .notSquare) ∧
    (A.length = (A.getD 0 []).length → allclose_sym A A.length = false →
      cholesky_precheck eigPos decomp A b = .error .notSymmetric) ∧
    (A.length = (A.getD 0 []).length → allclose_sym A A.length = true →
      eigPos A = false →
      cholesky_precheck eigPos decomp A b = .error .notPosDef) ∧
    (∀ e : CholErr, cholesky_precheck eigPos decomp A b = .error e →
      cholesky_precheck eigPos decomp2 A b = .error e) := by
  refine ⟨?_, ?_, ?_, ?_⟩
  · intro h
    unfold cholesky_precheck
    rw [if_pos h]
  · intro h hsym
    unfold cholesky_precheck
    rw [if_neg (not_not_intro h), if_neg (by simp [hsym])]
  · intro h hsym heig
    unfold cholesky_precheck
    rw [if_neg (not_not_intro h), if_pos hsym, if_neg (by simp [heig])]
  · intro e
    unfold cholesky_precheck
    split
    · exact fun h => h
    · split
      · split
        · exact fun h => by cases h
        · intro h
          simp_all [cholesky_precheck]
      · intro h
        simp_all [cholesky_precheck]

/-- Witness for `cholesky_precheck_spec`: the 1×2 matrix `[[1, 2]]` fails
the square check under two different decomposition continuations. -/
theorem cholesky_precheck_spec_witness :
    cholesky_precheck (fun _ => true) (fun _ _ => (0 : ℚ)) [[1, 2]] [1] =
      .error .notSquare ∧
    cholesky_precheck (fun _ => true) (fun _ _ => (1 : ℚ)) [[1, 2]] [1] =
      .error .notSquare := by
  constructor
  · exact (cholesky_precheck_spec (fun _ => true) (fun _ _ => (0 : ℚ))
      (fun _ _ => (1 : ℚ)) [[1, 2]] [1]).1 (by norm_num)
  · exact (cholesky_precheck_spec (fun _ => true) (fun _ _ => (1 : ℚ))
      (fun _ _ => (0 : ℚ)) [[1, 2]] [1]).1 (by norm_num)

/-! ## Theorems: the iterative update formula (C5) -/

/-- The component appended by one step of `sweepAux`. -/
def sweep_entry (jac : Bool) (adj : ℚ → ℚ) (old row acc : List ℚ) (bi : ℚ) (i : ℕ) : ℚ :=
  adj ((bi - dot_with_rounding adj (row.take i) (if jac then old.take i else acc)
    - dot_with_rounding adj (row.drop (i + 1)) (old.drop (i + 1))) / row.getD i 0)

lemma sweepAux_cons (jac : Bool) (adj : ℚ → ℚ) (old row : List ℚ)
    (ar : List (List ℚ)) (bi : ℚ) (br : List ℚ) (i : ℕ) (acc : List ℚ) :
    sweepAux jac adj old (row :: ar) (bi :: br) i acc =
      sweepAux jac adj old ar br (i + 1) (acc ++ [sweep_entry jac adj old row acc bi i]) :=
  rfl

lemma sweepAux_append (jac : Bool) (adj : ℚ → ℚ) (old : List ℚ) :
    ∀ (ar : List (List ℚ)) (br : List ℚ) (i : ℕ) (acc : List ℚ),
      ∃ l, sweepAux jac adj old ar br i acc = acc ++ l := by
  intro ar
  induction ar with
  | nil => exact fun br i acc => ⟨[], by simp [sweepAux]⟩
  | cons row ar ih =>
    intro br i acc
    cases br with
    | nil => exact ⟨[], by simp [sweepAux]⟩
    | cons bi br =>
      rw [sweepAux_cons]
      obtain ⟨l, hl⟩ := ih br (i + 1) (acc ++ [sweep_entry jac adj old row acc bi i])
      exact ⟨sweep_entry jac adj old row acc bi i :: l, by rw [hl, List.append_assoc]; rfl⟩

lemma sweepAux_length (jac : Bool) (adj : ℚ → ℚ) (old : List ℚ) :
    ∀ (ar : List (List ℚ)) (br : List ℚ) (i : ℕ) (acc : List ℚ),
      (sweepAux jac adj old ar br i acc).length = acc.length + min ar.length br.length := by
  intro ar
  induction ar with
  | nil => intro br i acc; simp [sweepAux]
  | cons row ar ih =>
    intro br i acc
    cases br with
    | nil => simp [sweepAux]
    | cons bi br =>
      rw [sweepAux_cons, ih]
      simp only [List.length_append, List.length_cons, List.length_nil]
      omega

lemma sweepAux_take (jac : Bool) (adj : ℚ → ℚ) (old : List ℚ)
    (ar : List (List ℚ)) (br : List ℚ) (i : ℕ) (acc : List ℚ) (hacc : acc.length = i) :
    (sweepAux jac adj old ar br i acc).take i = acc := by
  obtain ⟨l, hl⟩ := sweepAux_append jac adj old ar br i acc
  rw [hl, ← hacc, List.take_left]

lemma sweepAux_getD_spec (jac : Bool) (adj : ℚ → ℚ) (old : List ℚ) :
    ∀ (ar : List (List ℚ)) (br : List ℚ) (i : ℕ) (acc : List ℚ) (t : ℕ),
      acc.length = i → t < min ar.length br.length →
      (sweepAux jac adj old ar br i acc).getD (i + t) 0 =
        adj ((br.getD t 0
          - dot_with_rounding adj ((ar.getD t []).take (i + t))
              (if jac then old.take (i + t)
               else (sweepAux jac adj old ar br i acc).take (i + t))
          - dot_with_rounding adj ((ar.getD t []).drop (i + t + 1)) (old.drop (i + t + 1)))
          / (ar.getD t []).getD (i + t) 0) := by
  intro ar
  induction ar with
  | nil => intro br i acc t hacc ht; simp at ht
  | cons row ar ih =>
    intro br i acc t hacc ht
    cases br with
    | nil => simp at ht
    | cons bi br =>
      cases t with
      | zero =>
        rw [sweepAux_cons]
        obtain ⟨l, hl⟩ := sweepAux_append jac adj old ar br (i + 1)
          (acc ++ [sweep_entry jac adj old row acc bi i])
        have hlen : i < (acc ++ [sweep_entry jac adj old row acc bi i]).length := by
          simp [hacc]
        have hentry : (sweepAux jac adj old ar br (i + 1)
            (acc ++ [sweep_entry jac adj old row acc bi i])).getD i 0 =
            sweep_entry jac adj old row acc bi i := by
          rw [hl, List.getD_append _ _ _ _ hlen, ← hacc,
            List.getD_append_right acc _ 0 acc.length le_rfl]
          simp
        have htake : (sweepAux jac adj old ar br (i + 1)
            (acc ++ [sweep_entry jac adj old row acc bi i])).take i = acc := by
          obtain ⟨l2, hl2⟩ := sweepAux_append jac adj old ar br (i + 1)
            (acc ++ [sweep_entry jac adj old row acc bi i])
          rw [hl2, List.append_assoc, ← hacc, List.take_left]
        simp only [Nat.add_zero, List.getD_cons_zero]
        rw [hentry, htake, sweep_entry]
      | succ t =>
        rw [sweepAux_cons]
        have ht' : t < min ar.length br.length := by
          simp only [List.length_cons] at ht
          omega
        have hacc' : (acc ++ [sweep_entry jac adj old row acc bi i]).length = i + 1 := by
          simp [hacc]
        have := ih br (i + 1) (acc ++ [sweep_entry jac adj old row acc bi i]) t hacc' ht'
        have hidx : i + (t + 1) = i + 1 + t := by omega
        rw [hidx]
        rw [this]
        simp only [List.getD_cons_succ]

/-- **C5.** Each sweep of the unified iterative solver computes
`x_new[i] = adj((b[i] - S1 - S2) / A[i][i])` where `S1` is the rounded
dot product of `A[i][:i]` with the previous iterate (Jacobi) or with the
components already updated this sweep (Gauss-Seidel), and `S2` is the
rounded dot product of `A[i][i+1:]` with the previous iterate; moreover
in every such dot product each term is rounded before entering the sum,
and the sum is rounded once more — rounding is not confined to the final
quotient. -/
theorem iterative_update_formula (jac : Bool) (adj : ℚ → ℚ) (A : List (List ℚ))
    (b old : List ℚ) (i : ℕ) (hi : i < (sweep jac adj A b old).length) :
    (sweep jac adj A b old).getD i 0 =
      adj ((b.getD i 0
        - dot_with_rounding adj ((A.getD i []).take i)
            ((if jac then old else sweep jac adj A b old).take i)
        - dot_with_rounding adj ((A.getD i []).drop (i + 1)) (old.drop (i + 1)))
        / (A.getD i []).getD i 0) ∧
    (∀ u v : List ℚ, dot_with_rounding adj u v =
      adj (((u.zip v).map fun p => adj (p.1 * p.2)).foldl (· + ·) 0)) := by
  constructor
  · have hlen : (sweep jac adj A b old).length = min A.length b.length := by
      rw [sweep, sweepAux_length]
      simp
    have hi' : i < min A.length b.length := by rw [← hlen]; exact hi
    have := sweepAux_getD_spec jac adj old A b 0 [] i rfl hi'
    simp only [Nat.zero_add] at this
    rw [sweep]
    rw [this]
    cases jac with
    | false => simp [sweep]
    | true => simp
  · intro u v
    rw [dot_with_rounding, List.foldl_map]

/-- Witness for `iterative_update_formula`: the Gauss-Seidel sweep of the
2×2 system `A = [[2,1],[1,3]]`, `b = [5,10]` from `old = [0,0]` with the
identity rounding map, at row `0`. -/
theorem iterative_update_formula_witness :
    0 < (sweep false (fun q => q) [[2, 1], [1, 3]] [5, 10] [0, 0]).length ∧
    ((sweep false (fun q => q) [[2, 1], [1, 3]] [5, 10] [0, 0]).getD 0 0 =
      (fun q => q) (([5, 10].getD 0 0
        - dot_with_rounding (fun q => q) (([[2, 1], [1, 3]].getD 0 []).take 0)
            ((if false then [0, 0] else
              sweep false (fun q => q) [[2, 1], [1, 3]] [5, 10] [0, 0]).take 0)
        - dot_with_rounding (fun q => q) (([[2, 1], [1, 3]].getD 0 []).drop 1)
            ([0, 0].drop 1))
        / ([[2, 1], [1, 3]].getD 0 []).getD 0 0) ∧
      ∀ u v : List ℚ, dot_with_rounding (fun q => q) u v =
        (fun q => q) (((u.zip v).map fun p => (fun q => q) (p.1 * p.2)).foldl (· + ·) 0)) := by
  have hlen : 0 < (sweep false (fun q => q) [[2, 1], [1, 3]] [5, 10] [0, 0]).length := by
    rw [sweep, sweepAux_length]
    simp
  exact ⟨hlen, iterative_update_formula false (fun q => q) [[2, 1], [1, 3]] [5, 10] [0, 0] 0 hlen⟩

/-! ## Concrete evaluations of the rounding utility at precision 5 -/

lemma rndHalfEven_of_intCast {q : ℚ} {m : ℤ} (h : q = (m : ℚ)) : rndHalfEven q = m := by
  subst h
  simp [rndHalfEven, Int.floor_intCast]

lemma pow10_zero : pow10 0 = 1 := by
  norm_num [pow10, show (0 : ℤ).toNat = 0 from rfl]

lemma pow10_one : pow10 1 = 10 := by
  norm_num [pow10, show (1 : ℤ).toNat = 1 from rfl]

lemma pow10_four : pow10 4 = 10000 := by
  norm_num [pow10, show (4 : ℤ).toNat = 4 from rfl]

lemma rs5_of_scaled {x y : ℚ} {m : ℤ} (hx : x ≠ 0)
    (h1 : 1 ≤ |x|) (h2 : |x| < 10)
    (hm : x * 10000 = (m : ℚ)) (hy : (m : ℚ) / 10000 = y) :
    round_sig_fig 5 x = y :=
  round_sig_fig_eval hx (e := 0)
    (by rw [pow10_zero]; exact h1)
    (by rw [show (0 : ℤ) + 1 = 1 from rfl, pow10_one]; exact h2)
    (by rw [show (5 : ℤ) - 0 - 1 = 4 from rfl, pow10_four, rndHalfEven_of_intCast hm, hy])

lemma rs5_one : round_sig_fig 5 1 = 1 :=
  rs5_of_scaled (m := 10000) (by norm_num) (by norm_num) (by norm_num)
    (by norm_num) (by norm_num)

lemma rs5_two : round_sig_fig 5 2 = 2 :=
  rs5_of_scaled (m := 20000) (by norm_num) (by norm_num) (by norm_num)
    (by norm_num) (by norm_num)

lemma rs5_neg_one : round_sig_fig 5 (-1) = -1 :=
  rs5_of_scaled (m := -10000) (by norm_num) (by norm_num) (by norm_num)
    (by norm_num) (by norm_num)

lemma rs5_neg_two : round_sig_fig 5 (-2) = -2 :=
  rs5_of_scaled (m := -20000) (by norm_num) (by norm_num) (by norm_num)
    (by norm_num) (by norm_num)

lemma rs5_five_halves : round_sig_fig 5 (5 / 2) = 5 / 2 :=
  rs5_of_scaled (m := 25000) (by norm_num)
    (by rw [abs_of_pos (by norm_num : (0 : ℚ) < 5 / 2)]; norm_num)
    (by rw [abs_of_pos (by norm_num : (0 : ℚ) < 5 / 2)]; norm_num)
    (by norm_num) (by norm_num)

/-! ## Theorems: budget-exhaustion policy (C2) -/

/-- **C2 counterexample.** `FixedPoint.solve` on `g(x) = -x` from `x0 = 1`
with `eps = 1e-6` and a budget of 2 iterations: the iterate oscillates,
the relative error stays at `2` (never below `eps`), and after exhausting
the budget the finder returns a *success* dictionary (root `1`,
`iterations = 2`, `rel_error = 2`, `correct_sig_figs = 5`) instead of a
`NonConvergenceError`. -/
theorem fixed_point_exhaustion_counterexample :
    fixed_point_solve (fun x => -x) 5 1 (1 / 10 ^ 6) 2 = .ok ⟨1, 2, 2, 5⟩ ∧
    ¬ ((2 : ℚ) < 1 / 10 ^ 6) := by
  constructor
  · norm_num [fixed_point_solve, fixed_point_go, rs5_one, rs5_neg_one, rs5_two,
      count_correct_sig_figs]
  · norm_num

lemma iterative_go_ok_err_lt (jac : Bool) (prec : ℤ) (tol : ℚ) (A : List (List ℚ))
    (b : List ℚ) (maxIter : ℕ) :
    ∀ (fuel : ℕ) (x : List ℚ) (last : Option ℚ) (r : ItOk),
      iterative_go jac prec tol A b maxIter fuel x last = .ok r → r.error < tol := by
  intro fuel
  induction fuel with
  | zero =>
    intro x last r h
    cases last <;> simp [iterative_go] at h
  | succ fuel ih =>
    intro x last r h
    rw [iterative_go] at h
    by_cases hc : conv_err (sweep jac (round_sig_fig prec) A b x) x < tol
    · rw [if_pos hc] at h
      cases h
      exact hc
    · rw [if_neg hc] at h
      exact ih _ _ r h

lemma iterative_go_err_form (jac : Bool) (prec : ℤ) (tol : ℚ) (A : List (List ℚ))
    (b : List ℚ) (maxIter : ℕ) :
    ∀ (fuel : ℕ) (x : List ℚ) (q0 : ℚ) (e : ItErr),
      iterative_go jac prec tol A b maxIter fuel x (some q0) = .err e →
      ∃ q, e = .nonConvergence q := by
  intro fuel
  induction fuel with
  | zero =>
    intro x q0 e h
    simp [iterative_go] at h
    exact ⟨q0, h.symm⟩
  | succ fuel ih =>
    intro x q0 e h
    rw [iterative_go] at h
    by_cases hc : conv_err (sweep jac (round_sig_fig prec) A b x) x < tol
    · rw [if_pos hc] at h
      cases h
    · rw [if_neg hc] at h
      exact ih _ _ e h

lemma secant_go_ok_err_lt (f : ℚ → ℚ) (prec : ℤ) (eps tol : ℚ) (maxIter : ℕ) :
    ∀ (fuel : ℕ) (xm xi fm fi : ℚ) (r : RFOk),
      secant_go f prec eps tol maxIter fuel xm xi fm fi = .ok r → r.relError < eps := by
  intro fuel
  induction fuel with
  | zero => intro xm xi fm fi r h; simp [secant_go] at h
  | succ fuel ih =>
    intro xm xi fm fi r h
    rw [secant_go] at h
    by_cases h1 : |fm - fi| < tol
    · rw [if_pos h1] at h; cases h
    · rw [if_neg h1] at h
      set xip1 := round_sig_fig prec (xi - fi * (xm - xi) / (fm - fi)) with hx
      set relError := round_sig_fig prec |(xip1 - xi) / max |xip1| (1 / 10 ^ 12)| with hr
      by_cases h2 : 10 ^ 12 < relError
      · rw [if_pos h2] at h; cases h
      · rw [if_neg h2] at h
        by_cases h3 : relError < eps
        · rw [if_pos h3] at h
          cases h
          exact h3
        · rw [if_neg h3] at h
          exact ih _ _ _ _ r h

lemma fixed_point_go_err_form (g : ℚ → ℚ) (prec : ℤ) (eps : ℚ) (maxIter : ℕ) :
    ∀ (fuel : ℕ) (x : ℚ) (q0 : ℚ) (e : RFErr),
      fixed_point_go g prec eps maxIter fuel x (some q0) = .err e → e = .divergence := by
  intro fuel
  induction fuel with
  | zero => intro x q0 e h; simp [fixed_point_go] at h
  | succ fuel ih =>
    intro x q0 e h
    rw [fixed_point_go] at h
    set gx := round_sig_fig prec (g x) with hg
    set relError := round_sig_fig prec |(gx - x) / (if gx = 0 then 1 / 10 ^ 10 else gx)|
      with hr
    by_cases h1 : relError < eps ∨ |gx - x| < 1 / 10 ^ 12 ∨ |gx - x| < 1 / 10 ^ 14
    · rw [if_pos h1] at h; cases h
    · rw [if_neg h1] at h
      by_cases h2 : 10 ^ 10 < |gx|
      · rw [if_pos h2] at h
        cases h
        rfl
      · rw [if_neg h2] at h
        exact ih _ _ e h

/-- **C2 (amended).** On budget exhaustion the iterative linear solver and
the Secant finder do fail — each returns a success dictionary only when
its convergence test fired (`error < tol`, `rel_error < eps`), and the
iterative solver's only raised error is the `NonConvergenceError`
carrying the last error value — but `FixedPoint.solve` never raises a
non-convergence error at all: with at least one iteration its only
possible error is the divergence guard, exhaustion instead producing the
success result exhibited in the counterexample. -/
theorem budget_exhaustion_policy (jac : Bool) (prec : ℤ) (tol eps : ℚ)
    (A : List (List ℚ)) (b x0 : List ℚ) (maxIter : ℕ) (hm : 1 ≤ maxIter)
    (f g : ℚ → ℚ) (s0 s1 fx0 : ℚ) :
    (∀ r, iterative_solve jac prec A b x0 maxIter tol = .ok r → r.error < tol) ∧
    (∀ e, iterative_solve jac prec A b x0 maxIter tol = .err e →
      ∃ q, e = .nonConvergence q) ∧
    (∀ r, secant_solve f prec s0 s1 eps maxIter = .ok r → r.relError < eps) ∧
    (∀ e, fixed_point_solve g prec fx0 eps maxIter = .err e → e = .divergence) := by
  obtain ⟨n, rfl⟩ : ∃ n, maxIter = n + 1 := ⟨maxIter - 1, by omega⟩
  refine ⟨?_, ?_, ?_, ?_⟩
  · intro r h
    exact iterative_go_ok_err_lt jac prec tol A b (n + 1) (n + 1) x0 none r h
  · intro e h
    rw [iterative_solve, iterative_go] at h
    by_cases hc : conv_err (sweep jac (round_sig_fig prec) A b x0) x0 < tol
    · rw [if_pos hc] at h; cases h
    · rw [if_neg hc] at h
      exact iterative_go_err_form jac prec tol A b (n + 1) n _ _ e h
  · intro r h
    exact secant_go_ok_err_lt f prec eps (pow10 (-(prec + 1))) (n + 1) (n + 1) _ _ _ _ r h
  · intro e h
    rw [fixed_point_solve, fixed_point_go] at h
    set gx := round_sig_fig prec (g (round_sig_fig prec fx0)) with hg
    set relError := round_sig_fig prec
      |(gx - round_sig_fig prec fx0) / (if gx = 0 then 1 / 10 ^ 10 else gx)| with hr
    by_cases h1 : relError < eps ∨ |gx - round_sig_fig prec fx0| < 1 / 10 ^ 12 ∨
        |gx - round_sig_fig prec fx0| < 1 / 10 ^ 14
    · rw [if_pos h1] at h; cases h
    · rw [if_neg h1] at h
      by_cases h2 : 10 ^ 10 < |gx|
      · rw [if_pos h2] at h
        cases h
        rfl
      · rw [if_neg h2] at h
        exact fixed_point_go_err_form g prec eps (n + 1) n _ _ e h

/-- Witness for `budget_exhaustion_policy` at a concrete one-iteration
configuration. -/
theorem budget_exhaustion_policy_witness :
    1 ≤ 1 ∧
    ((∀ r, iterative_solve true 5 [[1]] [1] [0] 1 1 = .ok r → r.error < 1) ∧
     (∀ e, iterative_solve true 5 [[1]] [1] [0] 1 1 = .err e →
       ∃ q, e = .nonConvergence q) ∧
     (∀ r, secant_solve (fun _ => 0) 5 0 1 1 1 = .ok r → r.relError < 1) ∧
     (∀ e, fixed_point_solve (fun _ => 0) 5 0 1 1 = .err e → e = .divergence)) :=
  ⟨le_refl 1,
   budget_exhaustion_policy true 5 1 1 [[1]] [1] [0] 1 (le_refl 1) (fun _ => 0)
     (fun _ => 0) 0 1 0⟩

/-! ## Theorems: Modified Newton-Raphson, unknown multiplicity (C8) -/

/-- **C8 (code bug).** With `f(x) = x² + 1` (so `f' (x) = 2x`,
`f''(x) = 2`) and initial guess `1`, the guard denominator
`f'(x)² - f(x)·f''(x)` is exactly `0` on the very first iteration; instead
of returning the current best iterate as the spec (and the code's own
comment «just stop with current approximation») require, the early-return
branch reads the locals `rel_error` and `step` that no iteration has
assigned yet, so the call dies with an `UnboundLocalError`. -/
theorem modified2_first_iteration_crash :
    modified2_newton_solve (fun x => x ^ 2 + 1) (fun x => 2 * x) (fun _ => 2)
      5 1 (1 / 10 ^ 5) 2 = .err .unboundLocal := by
  norm_num [modified2_newton_solve, modified2_go, rs5_one, rs5_two]

/-! ## Theorems: root-finder stopping rules (C3) -/

/-- Modelled from the spec (§4.5): the claimed shared stopping quantity
`|x_new - x_ref| / max(|x_new|, ε_machine)` with `ε_machine = 1e-12`,
stated for comparison with what each finder actually computes. -/
def spec_rel_err (xnew xref : ℚ) : ℚ :=
  |xnew - xref| / max |xnew| (1 / 10 ^ 12)

/-- **C3 counterexample.** Bisection on `f(x) = x² - 25/4` over `[0, 5]`
with `eps = 1e-5`: the first midpoint `5/2` is an exact root, so
`|f(c)| < eps` fires and a success dictionary is returned at iteration 1
even though the claimed shared relative-error test evaluates to `1`,
nowhere near below `eps` — success was declared by a condition the claim
says does not exist. -/
theorem bisection_stopping_counterexample :
    bisection_solve (fun x => x ^ 2 - 25 / 4) 5 0 5 (1 / 10 ^ 5) 2 =
      .ok ⟨5 / 2, 1, 1, 0⟩ ∧
    ¬ (spec_rel_err (5 / 2) 0 < 1 / 10 ^ 5) := by
  constructor
  · norm_num [bisection_solve, bisection_go, rs5_five_halves, rs5_one,
      count_correct_sig_figs]
  · rw [spec_rel_err, abs_of_pos (by norm_num : (0 : ℚ) < 5 / 2 - 0),
      abs_of_pos (by norm_num : (0 : ℚ) < 5 / 2),
      max_eq_left (by norm_num : (1 : ℚ) / 10 ^ 12 ≤ 5 / 2)]
    norm_num

lemma newton_go_ok_shape (f fp : ℚ → ℚ) (prec : ℤ) (eps : ℚ) (maxIter : ℕ) :
    ∀ (fuel : ℕ) (xp fx : ℚ) (r : RFOk),
      newton_go f fp prec eps maxIter fuel xp fx = .ok r →
      r.relError < eps ∧ ∃ q, r.relError =
        round_sig_fig prec |(r.root - q) / (if r.root = 0 then 1 / 10 ^ 10 else r.root)| := by
  intro fuel
  induction fuel with
  | zero => intro xp fx r h; simp [newton_go] at h
  | succ fuel ih =>
    intro xp fx r h
    rw [newton_go] at h
    by_cases h1 : |round_sig_fig prec (fp xp)| < 1 / 10 ^ 12
    · rw [if_pos h1] at h; cases h
    · rw [if_neg h1] at h
      set xn := round_sig_fig prec (xp - fx / round_sig_fig prec (fp xp)) with hxn
      set relError := round_sig_fig prec |(xn - xp) / (if xn = 0 then 1 / 10 ^ 10 else xn)|
        with hrel
      by_cases h2 : relError < eps
      · rw [if_pos h2] at h
        cases h
        exact ⟨h2, xp, rfl⟩
      · rw [if_neg h2] at h
        exact ih _ _ r h

lemma bisection_go_ok_shape (f : ℚ → ℚ) (prec : ℤ) (eps : ℚ) (maxIter : ℕ) :
    ∀ (fuel : ℕ) (a b fa fb root : ℚ) (r : RFOk),
      bisection_go f prec eps maxIter fuel a b fa fb root = .ok r →
      ∃ c p, r.root = round_sig_fig prec c ∧
        r.relError = round_sig_fig prec |(c - p) / (if c = 0 then 1 / 10 ^ 10 else c)| ∧
        (|f c| < eps ∨ |(c - p) / (if c = 0 then 1 / 10 ^ 10 else c)| < eps) := by
  intro fuel
  induction fuel with
  | zero => intro a b fa fb root r h; simp [bisection_go] at h
  | succ fuel ih =>
    intro a b fa fb root r h
    rw [bisection_go] at h
    by_cases h1 : |f ((a + b) / 2)| < eps ∨
        |((a + b) / 2 - root) / (if (a + b) / 2 = 0 then 1 / 10 ^ 10 else (a + b) / 2)| < eps
    · rw [if_pos h1] at h
      cases h
      exact ⟨(a + b) / 2, root, rfl, rfl, h1⟩
    · rw [if_neg h1] at h
      by_cases h2 : fa * f ((a + b) / 2) < 0
      · rw [if_pos h2] at h
        exact ih _ _ _ _ _ r h
      · rw [if_neg h2] at h
        exact ih _ _ _ _ _ r h

lemma fixed_point_go_ok_shape (g : ℚ → ℚ) (prec : ℤ) (eps : ℚ) (maxIter : ℕ) :
    ∀ (fuel : ℕ) (x : ℚ) (last : Option ℚ) (r : RFOk),
      fixed_point_go g prec eps maxIter fuel x last = .ok r →
      (∃ x0, r.root = round_sig_fig prec (g x0) ∧
        (r.relError < eps ∨ |round_sig_fig prec (g x0) - x0| < 1 / 10 ^ 12 ∨
          |round_sig_fig prec (g x0) - x0| < 1 / 10 ^ 14)) ∨
      r.iterations = maxIter := by
  intro fuel
  induction fuel with
  | zero =>
    intro x last r h
    cases last with
    | none => simp [fixed_point_go] at h
    | some q =>
      rw [fixed_point_go] at h
      cases h
      exact Or.inr rfl
  | succ fuel ih =>
    intro x last r h
    rw [fixed_point_go] at h
    set gx := round_sig_fig prec (g x) with hg
    set relError := round_sig_fig prec |(gx - x) / (if gx = 0 then 1 / 10 ^ 10 else gx)|
      with hr
    by_cases h1 : relError < eps ∨ |gx - x| < 1 / 10 ^ 12 ∨ |gx - x| < 1 / 10 ^ 14
    · rw [if_pos h1] at h
      cases h
      exact Or.inl ⟨x, rfl, h1⟩
    · rw [if_neg h1] at h
      by_cases h2 : 10 ^ 10 < |gx|
      · rw [if_pos h2] at h; cases h
      · rw [if_neg h2] at h
        exact ih _ _ r h

lemma secant_rel_matches_spec (xnew xref : ℚ) :
    |(xnew - xref) / max |xnew| (1 / 10 ^ 12)| = spec_rel_err xnew xref := by
  rw [spec_rel_err, abs_div,
    abs_of_pos (lt_of_lt_of_le (by norm_num : (0 : ℚ) < 1 / 10 ^ 12) (le_max_right _ _))]

lemma secant_go_ok_shape (f : ℚ → ℚ) (prec : ℤ) (eps tol : ℚ) (maxIter : ℕ) :
    ∀ (fuel : ℕ) (xm xi fm fi : ℚ) (r : RFOk),
      secant_go f prec eps tol maxIter fuel xm xi fm fi = .ok r →
      r.relError < eps ∧
      ∃ q, r.relError = round_sig_fig prec (spec_rel_err r.root q) := by
  intro fuel
  induction fuel with
  | zero => intro xm xi fm fi r h; simp [secant_go] at h
  | succ fuel ih =>
    intro xm xi fm fi r h
    rw [secant_go] at h
    by_cases h1 : |fm - fi| < tol
    · rw [if_pos h1] at h; cases h
    · rw [if_neg h1] at h
      set xip1 := round_sig_fig prec (xi - fi * (xm - xi) / (fm - fi)) with hx
      set relError := round_sig_fig prec |(xip1 - xi) / max |xip1| (1 / 10 ^ 12)| with hr
      by_cases h2 : 10 ^ 12 < relError
      · rw [if_pos h2] at h; cases h
      · rw [if_neg h2] at h
        by_cases h3 : relError < eps
        · rw [if_pos h3] at h
          cases h
          refine ⟨h3, xi, ?_⟩
          simp only []
          rw [secant_rel_matches_spec]
        · rw [if_neg h3] at h
          exact ih _ _ _ _ r h

/-- **C3 (amended).** The finders do not share one stopping rule.
Newton-Raphson succeeds only when its rounded
`|(x_new - x_prev)/(x_new or 1e-10)|` falls below `eps`; Bisection also
succeeds whenever `|f(c)| < eps`, a condition absent from the claim, and
its relative error divides by the signed midpoint (`1e-10` only when the
midpoint is exactly `0`); Fixed-Point adds two absolute-change
alternatives (`1e-12`, `1e-14`) and, at budget exhaustion, succeeds
unconditionally; only the Secant family computes the claimed
`|x_new - x_ref| / max(|x_new|, 1e-12)` and succeeds exactly when that
rounded quantity is below `eps`. -/
theorem root_finder_stopping_rules (f fp g : ℚ → ℚ) (prec : ℤ)
    (a b x0 xf s0 s1 eps : ℚ) (maxIter : ℕ) :
    (∀ r, newton_solve f fp prec x0 eps maxIter = .ok r →
      r.relError < eps ∧ ∃ q, r.relError =
        round_sig_fig prec |(r.root - q) / (if r.root = 0 then 1 / 10 ^ 10 else r.root)|) ∧
    (∀ r, bisection_solve f prec a b eps maxIter = .ok r →
      ∃ c p, r.root = round_sig_fig prec c ∧
        r.relError = round_sig_fig prec |(c - p) / (if c = 0 then 1 / 10 ^ 10 else c)| ∧
        (|f c| < eps ∨ |(c - p) / (if c = 0 then 1 / 10 ^ 10 else c)| < eps)) ∧
    (∀ r, fixed_point_solve g prec xf eps maxIter = .ok r →
      (∃ x1, r.root = round_sig_fig prec (g x1) ∧
        (r.relError < eps ∨ |round_sig_fig prec (g x1) - x1| < 1 / 10 ^ 12 ∨
          |round_sig_fig prec (g x1) - x1| < 1 / 10 ^ 14)) ∨
      r.iterations = maxIter) ∧
    (∀ r, secant_solve f prec s0 s1 eps maxIter = .ok r →
      r.relError < eps ∧ ∃ q, r.relError = round_sig_fig prec (spec_rel_err r.root q)) := by
  refine ⟨?_, ?_, ?_, ?_⟩
  · intro r h
    exact newton_go_ok_shape f fp prec eps maxIter maxIter _ _ r h
  · intro r h
    rw [bisection_solve] at h
    by_cases h0 : 0 < f a * f b
    · rw [if_pos h0] at h; cases h
    · rw [if_neg h0] at h
      exact bisection_go_ok_shape f prec eps maxIter maxIter _ _ _ _ _ r h
  · intro r h
    exact fixed_point_go_ok_shape g prec eps maxIter maxIter _ _ r h
  · intro r h
    exact secant_go_ok_shape f prec eps (pow10 (-(prec + 1))) maxIter maxIter _ _ _ _ r h

/-- Witness for `root_finder_stopping_rules` at a configuration where the
fixed-point finder converges on the first of two budgeted iterations. -/
theorem root_finder_stopping_rules_witness :
    fixed_point_solve (fun _ => 0) 5 0 1 2 = .ok ⟨0, 1, 0, 0⟩ ∧
    ((∃ x1, (0 : ℚ) = round_sig_fig 5 ((fun _ => (0 : ℚ)) x1) ∧
        ((0 : ℚ) < 1 ∨ |round_sig_fig 5 ((fun _ => (0 : ℚ)) x1) - x1| < 1 / 10 ^ 12 ∨
          |round_sig_fig 5 ((fun _ => (0 : ℚ)) x1) - x1| < 1 / 10 ^ 14)) ∨
      (1 : ℕ) = 2) := by
  have hok : fixed_point_solve (fun _ => 0) 5 0 1 2 = .ok ⟨0, 1, 0, 0⟩ := by
    norm_num [fixed_point_solve, fixed_point_go, round_sig_fig_zero,
      count_correct_sig_figs]
  refine ⟨hok, ?_⟩
  have := (root_finder_stopping_rules (fun _ => 0) (fun _ => 0) (fun _ => 0) 5
    0 0 0 0 0 1 1 2).2.2.1 ⟨0, 1, 0, 0⟩ hok
  simpa using this

/-! ## Theorems: iterative convergence test (C6) -/

/-- Modelled from the spec (§4.4): the claimed convergence quantity
`max_i |x_new[i] - x_old[i]| / (|x_new[i]| + ε)`, stated for comparison
with the code's `np.max(np.abs((X - old_x) / (X + 1e-12)))`. -/
def spec_conv_err (newX old : List ℚ) : ℚ :=
  ((newX.zip old).map fun p => |p.1 - p.2| / (|p.1| + 1 / 10 ^ 12)).foldl max 0

/-- **C6 counterexample.** Jacobi on the 1×1 system `x = -2` from
`x0 = -3` with `tol = 1/2`: after the first sweep the iterate is `-2` and
the spec's quantity `|Δ| / (|x_new| + 1e-12) = 1/(2 + 1e-12)` is below the
tolerance, yet the solver does not declare convergence there — the code
divides by the signed component, giving `1/(2 - 1e-12) ≥ 1/2` — and only
succeeds at iteration 2 with error `0`. -/
theorem iterative_convergence_counterexample :
    iterative_solve true 5 [[1]] [-2] [-3] 3 (1 / 2) = .ok ⟨[-2], 2, 0⟩ ∧
    sweep true (round_sig_fig 5) [[1]] [-2] [-3] = [-2] ∧
    spec_conv_err [-2] [-3] < 1 / 2 ∧
    ¬ (conv_err [-2] [-3] < 1 / 2) := by
  have hsweep1 : sweep true (round_sig_fig 5) [[1]] [-2] [-3] = [-2] := by
    norm_num [sweep, sweepAux, dot_with_rounding, round_sig_fig_zero, rs5_neg_two]
  have hsweep2 : sweep true (round_sig_fig 5) [[1]] [-2] [-2] = [-2] := by
    norm_num [sweep, sweepAux, dot_with_rounding, round_sig_fig_zero, rs5_neg_two]
  have habs : |((-2 : ℚ) - -3) / (-2 + 1 / 10 ^ 12)| = 10 ^ 12 / (2 * 10 ^ 12 - 1) := by
    rw [show ((-2 : ℚ) - -3) / (-2 + 1 / 10 ^ 12) = -(10 ^ 12 / (2 * 10 ^ 12 - 1)) by
      norm_num]
    rw [abs_neg, abs_of_pos (by norm_num)]
  have herr1 : conv_err [-2] [-3] = 10 ^ 12 / (2 * 10 ^ 12 - 1) := by
    rw [conv_err]
    simp only [List.zip_cons_cons, List.zip_nil_right, List.map_cons, List.map_nil,
      List.foldl_cons, List.foldl_nil, habs]
    rw [max_eq_right (by norm_num)]
  have herr2 : conv_err [-2] [-2] = 0 := by
    norm_num [conv_err]
  refine ⟨?_, hsweep1, ?_, ?_⟩
  · norm_num [iterative_solve, iterative_go, hsweep1, hsweep2, herr1, herr2]
  · rw [spec_conv_err]
    simp only [List.zip_cons_cons, List.zip_nil_right, List.map_cons, List.map_nil,
      List.foldl_cons, List.foldl_nil]
    rw [show |((-2 : ℚ) - -3)| = 1 by norm_num,
      show |(-2 : ℚ)| = 2 by rw [abs_of_neg] <;> norm_num]
    rw [max_eq_right (by norm_num)]
    norm_num
  · rw [herr1]
    norm_num

/-- **C6 (amended).** The solver declares convergence exactly when the
code's quantity `max_i |(x_new[i] - x_old[i]) / (x_new[i] + 1e-12)|` —
with the *signed* component in the denominator — drops below the
tolerance: whenever that quantity is below `tol` the running iteration
returns success immediately with exactly that error, and every success
result's error is below `tol`.  The code's quantity agrees with the
spec's `max_i |Δ| / (|x_new[i]| + ε)` whenever all components of the new
iterate are nonnegative. -/
theorem iterative_convergence_test (jac : Bool) (prec : ℤ) (tol : ℚ)
    (A : List (List ℚ)) (b : List ℚ) (maxIter : ℕ) :
    (∀ (fuel : ℕ) (x : List ℚ) (last : Option ℚ),
      conv_err (sweep jac (round_sig_fig prec) A b x) x < tol →
      iterative_go jac prec tol A b maxIter (fuel + 1) x last =
        .ok ⟨sweep jac (round_sig_fig prec) A b x, maxIter - fuel,
          conv_err (sweep jac (round_sig_fig prec) A b x) x⟩) ∧
    (∀ (x0 : List ℚ) (r : ItOk),
      iterative_solve jac prec A b x0 maxIter tol = .ok r → r.error < tol) ∧
    (∀ newX old : List ℚ, (∀ x ∈ newX, 0 ≤ x) →
      conv_err newX old = spec_conv_err newX old) := by
  refine ⟨?_, ?_, ?_⟩
  · intro fuel x last hc
    rw [iterative_go, if_pos hc]
  · intro x0 r h
    exact iterative_go_ok_err_lt jac prec tol A b maxIter maxIter x0 none r h
  · intro newX old h
    rw [conv_err, spec_conv_err]
    congr 1
    apply List.map_congr_left
    intro p hp
    obtain ⟨a, c⟩ := p
    have ha : a ∈ newX := (List.of_mem_zip hp).1
    have h1 : 0 ≤ a := h a ha
    have h2 : (0 : ℚ) < a + 1 / 10 ^ 12 := by positivity
    simp only []
    rw [abs_div, abs_of_pos h2, abs_of_nonneg h1]

/-- Witness for `iterative_convergence_test`: the immediate-convergence
branch on the 1×1 system `x = 1` from `x0 = 1`, and the
nonnegative-iterate agreement at `[1]`, `[0]`. -/
theorem iterative_convergence_test_witness :
    conv_err (sweep true (round_sig_fig 5) [[1]] [1] [1]) [1] < 1 ∧
    iterative_go true 5 1 [[1]] [1] 3 (0 + 1) [1] none =
      .ok ⟨sweep true (round_sig_fig 5) [[1]] [1] [1], 3 - 0,
        conv_err (sweep true (round_sig_fig 5) [[1]] [1] [1]) [1]⟩ ∧
    (∀ x ∈ ([1] : List ℚ), 0 ≤ x) ∧
    conv_err [1] [0] = spec_conv_err [1] [0] := by
  have hsweep : sweep true (round_sig_fig 5) [[1]] [1] [1] = [1] := by
    norm_num [sweep, sweepAux, dot_with_rounding, round_sig_fig_zero, rs5_one]
  have herr : conv_err [1] [1] = 0 := by norm_num [conv_err]
  have hc : conv_err (sweep true (round_sig_fig 5) [[1]] [1] [1]) [1] < 1 := by
    rw [hsweep, herr]
    norm_num
  refine ⟨hc, ?_, by norm_num, ?_⟩
  · exact (iterative_convergence_test true 5 1 [[1]] [1] 3).1 0 [1] none hc
  · exact (iterative_convergence_test true 5 1 [[1]] [1] 3).2.2 [1] [0] (by norm_num)

/-! ## Theorems: system pre-validation (C4) -/

lemma check_rows_inconsistent_sound :
    ∀ (rows : List (List ℚ)) (bs : List ℚ) (i0 i : ℕ),
      check_rows rows bs i0 = some (.inconsistent i) →
      i0 ≤ i ∧ (∀ a ∈ rows.getD (i - i0) [], |a| < 1 / 10 ^ 12) ∧
        1 / 10 ^ 12 < |bs.getD (i - i0) 0| := by
  intro rows
  induction rows with
  | nil => intro bs i0 i h; simp [check_rows] at h
  | cons row ar ih =>
    intro bs i0 i h
    cases bs with
    | nil => simp [check_rows] at h
    | cons bi br =>
      rw [check_rows] at h
      by_cases h1 : (∀ a ∈ row, |a| < 1 / 10 ^ 12) ∧ 1 / 10 ^ 12 < |bi|
      · rw [if_pos h1] at h
        obtain rfl : i0 = i := by simpa using h
        refine ⟨le_refl _, ?_, ?_⟩
        · rw [Nat.sub_self]
          simpa using h1.1
        · rw [Nat.sub_self]
          simpa using h1.2
      · rw [if_neg h1] at h
        by_cases h2 : (∀ a ∈ row, |a| < 1 / 10 ^ 12) ∧ |bi| < 1 / 10 ^ 12
        · rw [if_pos h2] at h
          simp at h
        · rw [if_neg h2] at h
          obtain ⟨hle, hA, hb⟩ := ih br (i0 + 1) i h
          have hidx : i - i0 = (i - (i0 + 1)) + 1 := by omega
          exact ⟨by omega, by rw [hidx]; simpa using hA, by rw [hidx]; simpa using hb⟩

lemma check_rows_infinite_sound :
    ∀ (rows : List (List ℚ)) (bs : List ℚ) (i0 : ℕ),
      check_rows rows bs i0 = some .infiniteSolutions →
      ∃ t, (∀ a ∈ rows.getD t [], |a| < 1 / 10 ^ 12) ∧ |bs.getD t 0| < 1 / 10 ^ 12 := by
  intro rows
  induction rows with
  | nil => intro bs i0 h; simp [check_rows] at h
  | cons row ar ih =>
    intro bs i0 h
    cases bs with
    | nil => simp [check_rows] at h
    | cons bi br =>
      rw [check_rows] at h
      by_cases h1 : (∀ a ∈ row, |a| < 1 / 10 ^ 12) ∧ 1 / 10 ^ 12 < |bi|
      · rw [if_pos h1] at h
        simp at h
      · rw [if_neg h1] at h
        by_cases h2 : (∀ a ∈ row, |a| < 1 / 10 ^ 12) ∧ |bi| < 1 / 10 ^ 12
        · rw [if_pos h2] at h
          exact ⟨0, by simpa using h2.1, by simpa using h2.2⟩
        · rw [if_neg h2] at h
          obtain ⟨t, hA, hb⟩ := ih br (i0 + 1) h
          exact ⟨t + 1, by simpa using hA, by simpa using hb⟩

/-- **C4 counterexample.** `A = [[1,2],[2,4]]`, `b = [3, 6 + 1e-13]`: the
pre-validation elimination produces the fully-eliminated row `[0, 0]`
with the non-zero constant `-1/(2·10¹³)`, yet `validate` raises
`InfiniteSolutionsError` — not the `InconsistentSystemError` the claim
promises for a non-zero constant — because both classification tests
compare against the `1e-12` threshold rather than against zero. -/
theorem pre_validator_counterexample :
    validate [[1, 2], [2, 4]] [3, 6 + 1 / 10 ^ 13] = some .infiniteSolutions ∧
    (validate_elim [[1, 2], [2, 4]] [3, 6 + 1 / 10 ^ 13]).1.getD 1 [] = [0, 0] ∧
    (validate_elim [[1, 2], [2, 4]] [3, 6 + 1 / 10 ^ 13]).2.getD 1 0 =
      -(1 / (2 * 10 ^ 13)) ∧
    (-(1 / (2 * 10 ^ 13)) : ℚ) ≠ 0 := by
  have helim : validate_elim [[1, 2], [2, 4]] [3, 6 + 1 / 10 ^ 13] =
      ([[2, 4], [0, 0]], [6 + 1 / 10 ^ 13, -(1 / (2 * 10 ^ 13))]) := by
    norm_num [validate_elim, validate_step, pivot_search, elim_below, swap_entries,
      mapWithIdx, show List.range 2 = [0, 1] from rfl]
  refine ⟨?_, by rw [helim]; rfl, by rw [helim]; rfl, by norm_num⟩
  rw [validate, helim]
  norm_num [check_rows, abs_of_pos]

/-- **C4 (amended).** Before dispatch to any method other than the two
iterative ones the pre-validation elimination runs on a separate copy,
and its classification is threshold-based: a scanned row whose
coefficients all have magnitude below `1e-12` raises
`InconsistentSystemError` when the constant's magnitude exceeds `1e-12`
and `InfiniteSolutionsError` when it is below `1e-12` (a constant of
magnitude in between raises neither, so "non-zero constant" must read
"magnitude above 1e-12"); for iterative methods no validation error can
surface.  In particular `A = [[1,2],[2,4]]` with `b = [3,6]` yields
`InfiniteSolutionsError` and with `b = [3,7]` yields
`InconsistentSystemError`. -/
theorem pre_validator_spec (A : List (List ℚ)) (b : List ℚ) (d : SystemData) :
    (∀ i, validate A b = some (.inconsistent i) →
      (∀ a ∈ (validate_elim A b).1.getD i [], |a| < 1 / 10 ^ 12) ∧
        1 / 10 ^ 12 < |(validate_elim A b).2.getD i 0|) ∧
    (validate A b = some .infiniteSolutions →
      ∃ t, (∀ a ∈ (validate_elim A b).1.getD t [], |a| < 1 / 10 ^ 12) ∧
        |(validate_elim A b).2.getD t 0| < 1 / 10 ^ 12) ∧
    (d.method ≠ "Jacobi-Iteration" → d.method ≠ "Gauss-Seidel" →
      d.method ≠ "LU Decomposition" →
      ∀ e, validate d.A d.b = some e → get_solver d = .error (.validation e)) ∧
    (d.method = "Jacobi-Iteration" ∨ d.method = "Gauss-Seidel" →
      ∀ e, get_solver d ≠ .error (.validation e)) ∧
    validate [[1, 2], [2, 4]] [3, 6] = some .infiniteSolutions ∧
    validate [[1, 2], [2, 4]] [3, 7] = some (.inconsistent 1) := by
  obtain ⟨dA, db, dm, dp, dps, dN, dss⟩ := d
  refine ⟨?_, ?_, ?_, ?_, ?_, ?_⟩
  · intro i h
    have := check_rows_inconsistent_sound (validate_elim A b).1 (validate_elim A b).2 0 i h
    simpa using this.2
  · intro h
    exact check_rows_infinite_sound (validate_elim A b).1 (validate_elim A b).2 0 h
  · intro h1 h2 h3 e hv
    have h1a : dm ≠ "Jacobi-Iteration" := by simpa using h1
    have h2a : dm ≠ "Gauss-Seidel" := by simpa using h2
    have h3a : dm ≠ "LU Decomposition" := by simpa using h3
    have hva : validate dA db = some e := by simpa using hv
    simp only [get_solver, dispatch_stage, if_neg h3a]
    rw [if_pos ⟨h1a, h2a⟩, hva]
  · intro hit e
    have hit2 : dm = "Jacobi-Iteration" ∨ dm = "Gauss-Seidel" := by simpa using hit
    have hlu : dm ≠ "LU Decomposition" := by
      rcases hit2 with h | h <;> simp [h]
    simp only [get_solver, dispatch_stage, if_neg hlu]
    rw [if_neg (show ¬ (dm ≠ "Jacobi-Iteration" ∧ dm ≠ "Gauss-Seidel") by
      rcases hit2 with h | h <;> simp [h])]
    by_cases hf : SOLVER_NAMES.contains dm = true
    · rw [if_pos hf]
      simp
    · rw [if_neg hf]
      simp
  · have helim : validate_elim [[1, 2], [2, 4]] [3, 6] = ([[2, 4], [0, 0]], [6, 0]) := by
      norm_num [validate_elim, validate_step, pivot_search, elim_below, swap_entries,
        mapWithIdx, show List.range 2 = [0, 1] from rfl]
    rw [validate, helim]
    norm_num [check_rows]
  · have helim : validate_elim [[1, 2], [2, 4]] [3, 7] = ([[2, 4], [0, 0]], [7, -(1 / 2)]) := by
      norm_num [validate_elim, validate_step, pivot_search, elim_below, swap_entries,
        mapWithIdx, show List.range 2 = [0, 1] from rfl]
    rw [validate, helim]
    norm_num [check_rows, abs_of_pos]

/-- Witness for `pre_validator_spec`: the dispatch conjunct applied to a
concrete Gauss-Elimination request over an inconsistent 1×1 system. -/
theorem pre_validator_spec_witness :
    validate [[0]] [1] = some (.inconsistent 0) ∧
    get_solver ⟨[[0]], [1], "Gauss Elimination", 5, [], 1, false⟩ =
      .error (.validation (.inconsistent 0)) := by
  have hv : validate [[0]] [1] = some (.inconsistent 0) := by
    have helim : validate_elim [[0]] [1] = ([[0]], [1]) := by
      norm_num [validate_elim, validate_step, pivot_search, elim_below, swap_entries,
        mapWithIdx, show List.range 1 = [0] from rfl]
    rw [validate, helim]
    norm_num [check_rows]
  refine ⟨hv, ?_⟩
  exact (pre_validator_spec [[0]] [1]
    ⟨[[0]], [1], "Gauss Elimination", 5, [], 1, false⟩).2.2.1
    (by decide) (by decide) (by decide) (.inconsistent 0) hv

/-! ## Theorems: DTO immutability (C9) -/

lemma dispatch_stage_ok_shape (d1 d2 : SystemData) (h : dispatch_stage d1 = .ok d2) :
    d2 = { d1 with
      params := (setParam d1.params "Jacobi"
        (.num (if d1.method = "Jacobi-Iteration" then 1 else 0))) } := by
  rw [dispatch_stage] at h
  by_cases hc : d1.method ≠ "Jacobi-Iteration" ∧ d1.method ≠ "Gauss-Seidel"
  · rw [if_pos hc] at h
    cases hval : validate d1.A d1.b with
    | some e => rw [hval] at h; cases h
    | none =>
      rw [hval] at h
      by_cases hf : SOLVER_NAMES.contains d1.method = true
      · rw [if_pos hf] at h
        exact (Except.ok.inj h).symm
      · rw [if_neg hf] at h
        cases h
  · rw [if_neg hc] at h
    by_cases hf : SOLVER_NAMES.contains d1.method = true
    · rw [if_pos hf] at h
      exact (Except.ok.inj h).symm
    · rw [if_neg hf] at h
      cases h

/-- **C9 counterexample.** The DTO is not immutable between construction
and solve.  Constructing a `SystemData` already writes
`params["use_scaling"] = False` into the params dictionary, and
`get_solver` then writes the `"Jacobi"` flag into `params` for *every*
request — so after a plain Gauss-Elimination dispatch the problem's
`params` differ from the constructed ones — and rewrites `method` itself
for an `"LU Decomposition"` request. -/
theorem factory_mutation_counterexample :
    (mk_system_data [[1]] [1] "Gauss Elimination" 5 []).params =
      [("use_scaling", PVal.boolean false)] ∧
    get_solver (mk_system_data [[1]] [1] "Gauss Elimination" 5 []) =
      .ok ⟨[[1]], [1], "Gauss Elimination", 5,
        [("use_scaling", .boolean false), ("Jacobi", .num 0)], 1, false⟩ ∧
    ([("use_scaling", PVal.boolean false), ("Jacobi", PVal.num 0)] ≠
      [("use_scaling", PVal.boolean false)]) ∧
    get_solver (mk_system_data [[1]] [1] "LU Decomposition" 5
        [("LU Form", .str "Crout")]) =
      .ok ⟨[[1]], [1], "Crout", 5,
        [("LU Form", .str "Crout"), ("use_scaling", .boolean false),
         ("Jacobi", .num 0)], 1, false⟩ ∧
    ("Crout" : String) ≠ "LU Decomposition" := by
  have hval : validate [[1]] [1] = none := by
    have helim : validate_elim [[1]] [1] = ([[1]], [1]) := by
      norm_num [validate_elim, validate_step, pivot_search, elim_below, swap_entries,
        mapWithIdx, show List.range 1 = [0] from rfl]
    rw [validate, helim]
    norm_num [check_rows]
  refine ⟨?_, ?_, ?_, ?_, ?_⟩
  · simp [mk_system_data, setParam]
  · simp [mk_system_data, get_solver, dispatch_stage, setParam, SOLVER_NAMES, hval]
  · simp
  · simp [mk_system_data, get_solver, dispatch_stage, setParam, SOLVER_NAMES, hval,
      pvalMethodName, List.lookup]
  · simp

/-- **C9 (amended).** The DTO is aliased and mutated, not copied and
frozen: the `SystemData` constructor writes `params["use_scaling"]` into
the caller's dictionary, and factory dispatch rewrites `method` for
`"LU Decomposition"` requests and writes the `"Jacobi"` flag into
`params`.  What dispatch does leave untouched are the matrix `A`, the
vector `b`, `precision`, `N` and `single_step`, and the method name of
every non-LU request; caller data is protected only by the deep copies
the GUI makes before construction. -/
theorem factory_dispatch_frame (d d2 : SystemData) (h : get_solver d = .ok d2) :
    d2.A = d.A ∧ d2.b = d.b ∧ d2.precision = d.precision ∧ d2.N = d.N ∧
    d2.singleStep = d.singleStep ∧
    (d.method ≠ "LU Decomposition" → d2.method = d.method) ∧
    ∃ j : ℚ, (j = 0 ∨ j = 1) ∧ d2.params = setParam d.params "Jacobi" (.num j) := by
  rw [get_solver] at h
  by_cases hlu : d.method = "LU Decomposition"
  · rw [if_pos hlu] at h
    cases hl : d.params.lookup "LU Form" with
    | none => rw [hl] at h; cases h
    | some v =>
      rw [hl] at h
      have := dispatch_stage_ok_shape _ _ h
      subst this
      refine ⟨rfl, rfl, rfl, rfl, rfl, fun hne => absurd hlu hne, ?_⟩
      by_cases hj : pvalMethodName v = "Jacobi-Iteration"
      · exact ⟨1, Or.inr rfl, by simp [hj]⟩
      · exact ⟨0, Or.inl rfl, by simp [hj]⟩
  · rw [if_neg hlu] at h
    have := dispatch_stage_ok_shape _ _ h
    subst this
    refine ⟨rfl, rfl, rfl, rfl, rfl, fun _ => rfl, ?_⟩
    by_cases hj : d.method = "Jacobi-Iteration"
    · exact ⟨1, Or.inr rfl, by simp [hj]⟩
    · exact ⟨0, Or.inl rfl, by simp [hj]⟩

/-- Witness for `factory_dispatch_frame` at the concrete
Gauss-Elimination dispatch of the counterexample. -/
theorem factory_dispatch_frame_witness :
    get_solver (mk_system_data [[1]] [1] "Gauss Elimination" 5 []) =
      .ok ⟨[[1]], [1], "Gauss Elimination", 5,
        [("use_scaling", .boolean false), ("Jacobi", .num 0)], 1, false⟩ ∧
    ((⟨[[1]], [1], "Gauss Elimination", 5,
        [("use_scaling", .boolean false), ("Jacobi", .num 0)], 1, false⟩ :
          SystemData).A =
        (mk_system_data [[1]] [1] "Gauss Elimination" 5 []).A ∧
      ∃ j : ℚ, (j = 0 ∨ j = 1) ∧
        (⟨[[1]], [1], "Gauss Elimination", 5,
          [("use_scaling", .boolean false), ("Jacobi", .num 0)], 1, false⟩ :
            SystemData).params =
          setParam (mk_system_data [[1]] [1] "Gauss Elimination" 5 []).params
            "Jacobi" (.num j)) := by
  have hval : validate [[1]] [1] = none := by
    have helim : validate_elim [[1]] [1] = ([[1]], [1]) := by
      norm_num [validate_elim, validate_step, pivot_search, elim_below, swap_entries,
        mapWithIdx, show List.range 1 = [0] from rfl]
    rw [validate, helim]
    norm_num [check_rows]
  have hok : get_solver (mk_system_data [[1]] [1] "Gauss Elimination" 5 []) =
      .ok ⟨[[1]], [1], "Gauss Elimination", 5,
        [("use_scaling", .boolean false), ("Jacobi", .num 0)], 1, false⟩ := by
    simp [mk_system_data, get_solver, dispatch_stage, setParam, SOLVER_NAMES, hval]
  have hf := factory_dispatch_frame (mk_system_data [[1]] [1] "Gauss Elimination" 5 [])
    ⟨[[1]], [1], "Gauss Elimination", 5,
      [("use_scaling", .boolean false), ("Jacobi", .num 0)], 1, false⟩ hok
  exact ⟨hok, hf.1, hf.2.2.2.2.2.2⟩

end NumEngine
